import Mathlib

/-!
# Verification of the mitzi-scroller star-map viewer

Shallow embedding of `src/unnamed/part_000` (the Flipper Zero star-map
scroller, `scroller.c` of the mitzi-scroller repository) in Lean 4, together
with theorems settling the frozen specification claims.

Modelling conventions:

* The camera position is stored in the C code as a pair of `float`s, but every
  value it can ever hold is a small integer: it starts at `(256, 288)`, every
  move adds or subtracts `4.0f`, and every clamp bound (`0`, `512`, `576`) is
  an integer.  All of these values (and the divisions by the powers of two
  `64` and `128` performed on them) are exactly representable in binary
  floating point, so the embedding uses `Int` and is exact.
* C `int` division and remainder truncate toward zero; they are embedded as
  `Int.tdiv` and `Int.tmod`, which have the same semantics.
* C char buffers are embedded as `List Char`; byte buffers as `List Nat`
  (each entry a byte value).
* `has_annotation : bool` together with `current_annotation : char[64]` is
  embedded as a single `Option (List Char)` (the C code always resets the
  pair to `(false, "")` before optionally setting `(true, text)`).

The file is organised as definitions first (all translated from the C
source, except `specHitTest` and `spec_visible_bounds`, which follow the
specification's wording for the refinement claims C2 and C8), then lemmas
and the claim theorems.
-/

namespace Scroller

/-! ## Definitions — data model -/

/-- An annotation record: one parsed line of `annotations.csv`
(C struct `Annotation`). -/
structure Annotation where
  tile_number : Int
  x : Int
  y : Int
  text : List Char
  deriving DecidableEq, Repr

/-! ## Definitions — hit-test (`check_annotations`, part_000 lines 343–385) -/

/-- The scan loop inside `check_annotations`: first annotation (in load order)
on tile `tile` whose squared distance from `(lx, ly)` is at most
`CURSOR_RADIUS * CURSOR_RADIUS = 16`; the C code `break`s at the first hit and
copies at most 63 characters of the label (`strncpy(..., sizeof - 1)`). -/
def scanAnns (tile lx ly : Int) : List Annotation → Option (List Char)
  | [] => none
  | a :: rest =>
    if a.tile_number = tile ∧
        (lx - a.x) * (lx - a.x) + (ly - a.y) * (ly - a.y) ≤ 16 then
      some (a.text.take 63)
    else scanAnns tile lx ly rest

/-- `check_annotations`: cursor world position is the camera position plus
half the screen extent `(64, 32)`; the cursor tile is
`row * TILE_COLS + col` with `row = cursor_y / 64`, `col = cursor_x / 128`
(C truncating division); the combined tile number is bounds-checked against
`[0, TOTAL_TILES) = [0, 50)` and the annotations are scanned linearly. -/
def check_annotations (anns : List Annotation) (camera_x camera_y : Int) :
    Option (List Char) :=
  let cursor_world_x := camera_x + 64
  let cursor_world_y := camera_y + 32
  let cursor_tile_col := cursor_world_x.tdiv 128
  let cursor_tile_row := cursor_world_y.tdiv 64
  let cursor_tile_num := cursor_tile_row * 5 + cursor_tile_col
  if cursor_tile_num < 0 ∨ 50 ≤ cursor_tile_num then none
  else
    scanAnns cursor_tile_num (cursor_world_x.tmod 128) (cursor_world_y.tmod 64)
      anns

/-- The hit-test as described by the specification (for claim C2): cursor
world position is the camera position plus half the screen extent; the result
is the label of the **first** annotation in load order whose tile number
equals the cursor's tile number and whose squared Euclidean distance from the
cursor's tile-local coordinates is at most `4 * 4 = 16`; `none` if no such
record exists. -/
def specHitTest (anns : List Annotation) (camera_x camera_y : Int) :
    Option (List Char) :=
  let cx := camera_x + 64
  let cy := camera_y + 32
  let tile := (cy.tdiv 64) * 5 + cx.tdiv 128
  (anns.find? fun a =>
      a.tile_number == tile &&
        decide ((cx.tmod 128 - a.x) * (cx.tmod 128 - a.x) +
          (cy.tmod 64 - a.y) * (cy.tmod 64 - a.y) ≤ 16)).map
    (fun a => a.text)

/-! ## Definitions — event loop (`scroller_main`, part_000 lines 475–559) -/

/-- Input keys handled by the main loop that leave the loop running. -/
inductive Key where
  | up
  | down
  | left
  | right
  | ok
  deriving DecidableEq, Repr

/-- Observable state of the main loop: camera position plus the currently
displayed annotation. -/
structure LoopState where
  camera_x : Int
  camera_y : Int
  current_annotation : Option (List Char)
  deriving DecidableEq, Repr

/-- Camera update of one `InputTypePress`/`InputTypeRepeat` event
(`switch(event.key)`, lines 516–539): move by `move_speed = 4` on one axis,
then clamp that axis. -/
def moveCamera : Key → Int × Int → Int × Int
  | .up, (cx, cy) => (cx, if cy - 4 < 0 then 0 else cy - 4)
  | .down, (cx, cy) => (cx, if 640 - 64 < cy + 4 then 640 - 64 else cy + 4)
  | .left, (cx, cy) => (if cx - 4 < 0 then 0 else cx - 4, cy)
  | .right, (cx, cy) => (if 640 - 128 < cx + 4 then 640 - 128 else cx + 4, cy)
  | .ok, (cx, cy) => (cx, cy)

/-- One loop iteration that received a press/repeat event: update the camera,
then recompute the hit-test (`check_annotations(state)` at line 555). -/
def step (anns : List Annotation) (s : LoopState) (k : Key) : LoopState :=
  let c := moveCamera k (s.camera_x, s.camera_y)
  ⟨c.1, c.2, check_annotations anns c.1 c.2⟩

/-- State right after startup (lines 483–484 and 510): camera at
`((MAP_WIDTH - SCREEN_WIDTH) / 2, (MAP_HEIGHT - SCREEN_HEIGHT) / 2)` and one
initial `check_annotations` before the first event is drawn from the queue. -/
def initState (anns : List Annotation) : LoopState :=
  ⟨(640 - 128) / 2, (640 - 64) / 2,
    check_annotations anns ((640 - 128) / 2) ((640 - 64) / 2)⟩

/-- The observable state after the main loop has processed `events`. -/
def runLoop (anns : List Annotation) (events : List Key) : LoopState :=
  events.foldl (step anns) (initState anns)

/-- The camera clamp invariant of the state struct's documentation:
`0 ≤ camera_x ≤ MAP_WIDTH - SCREEN_WIDTH` and
`0 ≤ camera_y ≤ MAP_HEIGHT - SCREEN_HEIGHT`. -/
def cameraInBounds (s : LoopState) : Prop :=
  0 ≤ s.camera_x ∧ s.camera_x ≤ 512 ∧ 0 ≤ s.camera_y ∧ s.camera_y ≤ 576

/-! ## Definitions — annotation loading (`load_annotations`, lines 246–329)

The C code reads the whole CSV file into a buffer, splits it at `'\n'`
(`strchr`), truncates each line at its first `'\r'`, unconditionally skips the
first line, and parses each remaining line with
`sscanf(line, "%d,%d,%d,%63[^\r\n]", ...) == 4`, storing the record only when
the tile number lies in `[0, TOTAL_TILES) = [0, 50)` and fewer than
`MAX_ANNOTATIONS = 200` records have been stored so far.
`scanIntField`/`scanComma`/`scanLabel` model the four `sscanf` conversions:
`%d` skips C whitespace, accepts an optional sign and then one or more
digits; a literal `','` must match exactly; `%63[^\r\n]` takes one to
sixty-three characters none of which is CR or LF. -/

/-- Numeric value of a nonempty digit string (as consumed by `%d`). -/
def natOfDigits (ds : List Char) : Nat :=
  ds.foldl (fun a c => a * 10 + (c.toNat - 48)) 0

/-- C `isspace` characters skipped by a `%d` conversion. -/
def isCSpace (c : Char) : Bool :=
  c == ' ' || c == '\t' || c == '\n' || c == '\r' || c == '\x0b' || c == '\x0c'

/-- Skip leading C whitespace. -/
def skipSpaces : List Char → List Char
  | [] => []
  | c :: cs => if isCSpace c then skipSpaces cs else c :: cs

/-- One or more decimal digits, consumed greedily. -/
def scanDigits (s : List Char) : Option (Nat × List Char) :=
  let ds := s.takeWhile Char.isDigit
  if ds.isEmpty then none else some (natOfDigits ds, s.dropWhile Char.isDigit)

/-- One `%d` conversion: skip whitespace, optional sign, one or more digits. -/
def scanIntField (s : List Char) : Option (Int × List Char) :=
  match skipSpaces s with
  | '-' :: rest => (scanDigits rest).map fun p => (-(p.1 : Int), p.2)
  | '+' :: rest => (scanDigits rest).map fun p => ((p.1 : Int), p.2)
  | s' => (scanDigits s').map fun p => ((p.1 : Int), p.2)

/-- A literal `','` in the `sscanf` format: must match the next character. -/
def scanComma : List Char → Option (List Char)
  | ',' :: rest => some rest
  | _ => none

/-- The `%63[^\r\n]` conversion: one to sixty-three characters, none CR/LF. -/
def scanLabel (s : List Char) : Option (List Char) :=
  let t := (s.takeWhile fun c => c != '\r' && c != '\n').take 63
  if t.isEmpty then none else some t

/-- `sscanf(line, "%d,%d,%d,%63[^\r\n]", ...) == 4`. -/
def parseRecord (s : List Char) : Option (Int × Int × Int × List Char) := do
  let p1 ← scanIntField s
  let s1 ← scanComma p1.2
  let p2 ← scanIntField s1
  let s2 ← scanComma p2.2
  let p3 ← scanIntField s2
  let s3 ← scanComma p3.2
  let txt ← scanLabel s3
  some (p1.1, p2.1, p3.1, txt)

/-- One data line of the CSV: truncate at the first `'\r'` (`strchr`), parse
the four fields, and accept the record only when the tile number lies in
`[0, 50)`. -/
def parseAnn (line : List Char) : Option Annotation :=
  match parseRecord (line.takeWhile (· != '\r')) with
  | some (t, x, y, txt) => if 0 ≤ t ∧ t < 50 then some ⟨t, x, y, txt⟩ else none
  | none => none

/-- The parsing loop over the data lines, with `fuel` the remaining capacity
(`MAX_ANNOTATIONS - annotation_count`): a line that parses consumes one unit
of capacity, a skipped line consumes none, and the loop stops when the
capacity is exhausted or the lines run out. -/
def loadAux : List (List Char) → Nat → List Annotation
  | [], _ => []
  | _ :: _, 0 => []
  | l :: ls, fuel + 1 =>
    match parseAnn l with
    | some a => a :: loadAux ls fuel
    | none => loadAux ls (fuel + 1)

/-- The full line-by-line pass: the first line (header) is discarded
unconditionally, then at most `MAX_ANNOTATIONS = 200` records are stored. -/
def loadLines : List (List Char) → List Annotation
  | [] => []
  | _ :: rest => loadAux rest 200

/-- Splitting the file buffer at `'\n'`, as the `strchr`-based C loop does. -/
def splitLines : List Char → List (List Char)
  | [] => [[]]
  | c :: rest =>
    if c = '\n' then [] :: splitLines rest
    else
      match splitLines rest with
      | l :: ls => (c :: l) :: ls
      | [] => [[c]]

/-- The whole of C `load_annotations`, including the file-size guard
(`file_size == 0 || file_size > 16384` fails early) and the return value
`annotation_count > 0`. -/
def load_annotations (content : List Char) : List Annotation × Bool :=
  if content.length = 0 ∨ 16384 < content.length then ([], false)
  else
    let anns := loadLines (splitLines content)
    (anns, decide (0 < anns.length))

/-! ## Definitions — bitmap decoder (`draw_tile_bmp`, lines 140–230)

The file is a byte list.  The C code reads a 54-byte header (failing unless
exactly 54 bytes are available), checks the `'B' 'M'` signature, extracts
width/height (little-endian signed 32-bit), bits-per-pixel (little-endian
16-bit) and the pixel-data offset (little-endian 32-bit), requires
`128 × 64 × 1bpp`, seeks to the data offset and reads `height` scanlines of
`row_size = ((width + 31) / 32) * 4` bytes in file order, drawing scanline
`n` at display row `height - 1 - n`; within a scanline, pixel column `col`
is set when bit `7 - col % 8` of byte `col / 8` is set.  A short scanline
read `break`s out of the loop — after which the C code *unconditionally*
sets `success = true` (lines 207–213). -/

/-- Little-endian 16-bit value at byte offset `i`. -/
def le16At (f : List Nat) (i : Nat) : Nat :=
  f.getD i 0 + 256 * f.getD (i + 1) 0

/-- Little-endian 32-bit value at byte offset `i`. -/
def le32At (f : List Nat) (i : Nat) : Nat :=
  f.getD i 0 + 256 * f.getD (i + 1) 0 + 65536 * f.getD (i + 2) 0 +
    16777216 * f.getD (i + 3) 0

/-- Reinterpret a 32-bit little-endian value as a signed `int32_t`. -/
def sint32 (n : Nat) : Int :=
  if n < 2147483648 then (n : Int) else (n : Int) - 4294967296

/-- `(row_buffer[col / 8] >> (7 - col % 8)) & 1`. -/
def pixelBit (buf : List Nat) (col : Nat) : Bool :=
  (buf.getD (col / 8) 0 >>> (7 - col % 8)) &&& 1 == 1

/-- The inner column loop: set pixels of one scanline, drawn at display
row `row` with drawing origin `(x, y)`. -/
def rowPixels (x y : Int) (width : Nat) (buf : List Nat) (row : Int) :
    List (Int × Int) :=
  (List.range width).filterMap fun col =>
    if pixelBit buf col then some (x + col, y + row) else none

/-- The scanline loop: `rows` lists the display rows in the order their
scanlines appear in the file; each iteration consumes `stride` bytes and a
short read stops the loop immediately. -/
def drawRows (x y : Int) (width stride : Nat) :
    List Int → List Nat → List (Int × Int)
  | [], _ => []
  | r :: rs, data =>
    if stride ≤ data.length then
      rowPixels x y width (data.take stride) r ++
        drawRows x y width stride rs (data.drop stride)
    else []

/-- `[n-1, n-2, ..., 0]`: the display rows in the order the C loop
`for (row = height - 1; row >= 0; row--)` visits them. -/
def descRows : Nat → List Int
  | 0 => []
  | n + 1 => (n : Int) :: descRows n

/-- The whole of `draw_tile_bmp` on the bytes of one tile file: returns the
`success` flag reported to the caller and the list of pixels drawn at origin
`(x, y)`. -/
def draw_tile_bmp (x y : Int) (file : List Nat) : Bool × List (Int × Int) :=
  if file.length < 54 then (false, [])
  else if ¬ (file.getD 0 0 = 66 ∧ file.getD 1 0 = 77) then (false, [])
  else
    let width := sint32 (le32At file 18)
    let height := sint32 (le32At file 22)
    let bpp := le16At file 28
    let data_offset := le32At file 10
    if width = 128 ∧ height = 64 ∧ bpp = 1 then
      let row_size := ((width + 31).tdiv 32) * 4
      (true,
        drawRows x y width.toNat row_size.toNat (descRows height.toNat)
          (file.drop data_offset))
    else (false, [])

/-- A well-formed 54-byte header: signature `BM`, pixel-data offset 54,
width 128, height 64, one color plane, 1 bit per pixel. -/
def validHeader : List Nat :=
  [66, 77] ++ List.replicate 8 0 ++ [54, 0, 0, 0] ++ [40, 0, 0, 0] ++
    [128, 0, 0, 0] ++ [64, 0, 0, 0] ++ [1, 0] ++ [1, 0] ++ List.replicate 24 0

/-- A tile file: the well-formed header followed by the pixel data. -/
def mkFile (data : List Nat) : List Nat := validHeader ++ data

/-- `validHeader` with the width field changed to 64. -/
def badWidthHeader : List Nat :=
  [66, 77] ++ List.replicate 8 0 ++ [54, 0, 0, 0] ++ [40, 0, 0, 0] ++
    [64, 0, 0, 0] ++ [64, 0, 0, 0] ++ [1, 0] ++ [1, 0] ++ List.replicate 24 0

/-- `validHeader` with the bits-per-pixel field changed to 8. -/
def badBppHeader : List Nat :=
  [66, 77] ++ List.replicate 8 0 ++ [54, 0, 0, 0] ++ [40, 0, 0, 0] ++
    [128, 0, 0, 0] ++ [64, 0, 0, 0] ++ [1, 0] ++ [8, 0] ++ List.replicate 24 0

/-! ## Definitions — visible tile range (`scroller_draw_callback`,
lines 397–433) -/

/-- The visible-range computation of the draw callback, returned as
`(row_min, row_max, col_min, col_max)`: start = `camera / tile_extent`,
end = `(camera + screen_extent) / tile_extent` (C truncating division on the
float camera, exact on the integer values the camera can hold), start
clamped from below at 0 and end clamped from above at `TILE_COLS - 1 = 4` /
`TILE_ROWS - 1 = 9`. -/
def visible_range (camera_x camera_y : Int) : Int × Int × Int × Int :=
  let start_tile_col := camera_x.tdiv 128
  let start_tile_row := camera_y.tdiv 64
  let end_tile_col := (camera_x + 128).tdiv 128
  let end_tile_row := (camera_y + 64).tdiv 64
  let start_tile_col := if start_tile_col < 0 then 0 else start_tile_col
  let start_tile_row := if start_tile_row < 0 then 0 else start_tile_row
  let end_tile_col := if 5 ≤ end_tile_col then 4 else end_tile_col
  let end_tile_row := if 10 ≤ end_tile_row then 9 else end_tile_row
  (start_tile_row, end_tile_row, start_tile_col, end_tile_col)

/-- The integers from `a` to `b` inclusive (empty when `b < a`): the index
set of a C `for (i = a; i <= b; i++)` loop. -/
def intRange (a b : Int) : List Int :=
  (List.range (b + 1 - a).toNat).map fun i : Nat => a + (i : Int)

/-- The `(row, col)` pairs the nested tile loop of the draw callback draws. -/
def drawn_tiles (camera_x camera_y : Int) : List (Int × Int) :=
  let b := visible_range camera_x camera_y
  (intRange b.1 b.2.1).flatMap fun row =>
    (intRange b.2.2.1 b.2.2.2).map fun col => (row, col)

/-- The bounds as the specification words them (for claim C8):
`floor(position / tile_extent)` through `floor((position + screen_extent) /
tile_extent)`, each bound clamped to `[0, rows - 1] = [0, 9]` and
`[0, columns - 1] = [0, 4]`. -/
def spec_visible_bounds (camera_x camera_y : Int) : Int × Int × Int × Int :=
  (max 0 (min 9 (camera_y.tdiv 64)), max 0 (min 9 ((camera_y + 64).tdiv 64)),
   max 0 (min 4 (camera_x.tdiv 128)), max 0 (min 4 ((camera_x + 128).tdiv 128)))

/-! ## Lemmas — camera clamping, claims C1 and C10 -/

lemma step_preserves_bounds (anns : List Annotation) (s : LoopState) (k : Key)
    (h : cameraInBounds s) : cameraInBounds (step anns s k) := by
  obtain ⟨h1, h2, h3, h4⟩ := h
  cases k <;> simp only [step, moveCamera, cameraInBounds] <;>
    refine ⟨?_, ?_, ?_, ?_⟩ <;> dsimp only <;> omega

lemma foldl_step_bounds (anns : List Annotation) :
    ∀ (events : List Key) (s : LoopState), cameraInBounds s →
      cameraInBounds (events.foldl (step anns) s)
  | [], _, h => h
  | k :: rest, s, h =>
    foldl_step_bounds anns rest (step anns s k)
      (step_preserves_bounds anns s k h)

lemma initState_bounds (anns : List Annotation) :
    cameraInBounds (initState anns) := by
  unfold cameraInBounds initState
  norm_num

lemma runLoop_bounds (anns : List Annotation) (events : List Key) :
    cameraInBounds (runLoop anns events) :=
  foldl_step_bounds anns events (initState anns) (initState_bounds anns)

/-- C1: after startup and after every sequence of directional move events the
camera satisfies `0 ≤ camera_x ≤ 640 - 128 = 512` and
`0 ≤ camera_y ≤ 640 - 64 = 576`; each key moves and clamps a single axis, and
every observable state (the fold of `step` over any event prefix) satisfies
the bound. -/
theorem C1_camera_clamp_invariant (anns : List Annotation)
    (events : List Key) :
    0 ≤ (runLoop anns events).camera_x ∧
      (runLoop anns events).camera_x ≤ 640 - 128 ∧
      0 ≤ (runLoop anns events).camera_y ∧
      (runLoop anns events).camera_y ≤ 640 - 64 :=
  runLoop_bounds anns events

/-- C10: at startup, before the first event, the camera is at the exact
center `((640 - 128) / 2, (640 - 64) / 2) = (256, 288)`, this position
satisfies the clamp invariant, and the hit-test has been evaluated (once, by
the `check_annotations(state)` call before the event loop) for exactly this
position. -/
theorem C10_initial_state (anns : List Annotation) :
    (runLoop anns []).camera_x = (640 - 128) / 2 ∧
      (runLoop anns []).camera_y = (640 - 64) / 2 ∧
      (runLoop anns []).camera_x = 256 ∧
      (runLoop anns []).camera_y = 288 ∧
      cameraInBounds (runLoop anns []) ∧
      LoopState.current_annotation (runLoop anns []) =
        check_annotations anns 256 288 := by
  refine ⟨rfl, rfl, by norm_num [runLoop, initState], by norm_num [runLoop, initState],
    runLoop_bounds anns [], ?_⟩
  show check_annotations anns ((640 - 128) / 2) ((640 - 64) / 2) =
    check_annotations anns 256 288
  norm_num

/-! ## Lemmas — label lengths of loaded records -/

lemma scanLabel_length {s t : List Char} (h : scanLabel s = some t) :
    t.length ≤ 63 := by
  simp only [scanLabel] at h
  split at h
  · cases h
  · cases h
    have := List.length_take 63 (s.takeWhile fun c => c != '\r' && c != '\n')
    omega

lemma parseRecord_label_length {s : List Char} {t x y : Int} {txt : List Char}
    (h : parseRecord s = some (t, x, y, txt)) : txt.length ≤ 63 := by
  unfold parseRecord at h
  simp only [Option.bind_eq_bind, Option.bind_eq_some] at h
  obtain ⟨p1, h1, s1, h2, p2, h3, s2, h4, p3, h5, s3, h6, l, h7, h8⟩ := h
  cases h8
  exact scanLabel_length h7

lemma parseAnn_text_length {l : List Char} {a : Annotation}
    (h : parseAnn l = some a) : a.text.length ≤ 63 := by
  unfold parseAnn at h
  rcases hr : parseRecord (l.takeWhile (· != '\r')) with _ | ⟨t, x, y, txt⟩
  · rw [hr] at h
    cases h
  · rw [hr] at h
    dsimp only at h
    by_cases hc : 0 ≤ t ∧ t < 50
    · rw [if_pos hc] at h
      cases h
      exact parseRecord_label_length hr
    · rw [if_neg hc] at h
      cases h

lemma loadAux_zero : ∀ ls : List (List Char), loadAux ls 0 = []
  | [] => rfl
  | _ :: _ => rfl

lemma loadAux_mem : ∀ (ls : List (List Char)) (fuel : Nat) (a : Annotation),
    a ∈ loadAux ls fuel → ∃ l ∈ ls, parseAnn l = some a := by
  intro ls
  induction ls with
  | nil => intro fuel a ha; rw [loadAux] at ha; cases ha
  | cons l ls ih =>
    intro fuel a ha
    cases fuel with
    | zero => rw [loadAux_zero] at ha; cases ha
    | succ n =>
      cases hp : parseAnn l with
      | some b =>
        rw [loadAux, hp] at ha
        rcases List.mem_cons.mp ha with h | h
        · subst h
          exact ⟨l, List.mem_cons_self l ls, hp⟩
        · obtain ⟨l', hl', h'⟩ := ih n a h
          exact ⟨l', List.mem_cons_of_mem l hl', h'⟩
      | none =>
        rw [loadAux, hp] at ha
        obtain ⟨l', hl', h'⟩ := ih (n + 1) a ha
        exact ⟨l', List.mem_cons_of_mem l hl', h'⟩

/-- Every record of a loaded table has a label of at most 63 characters
(the `%63[...]` conversion and `strncpy` both truncate there); this is the
side condition under which claim C2 is stated. -/
lemma loadLines_text_length (lines : List (List Char)) (a : Annotation)
    (ha : a ∈ loadLines lines) : a.text.length ≤ 63 := by
  cases lines with
  | nil => rw [loadLines] at ha; cases ha
  | cons hd rest =>
    obtain ⟨l, _, hl⟩ := loadAux_mem rest 200 a ha
    exact parseAnn_text_length hl

/-! ## Lemmas — hit-test, claims C2 and C9 -/

lemma scanAnns_eq_find (tile lx ly : Int) (anns : List Annotation)
    (hlen : ∀ a ∈ anns, a.text.length ≤ 63) :
    scanAnns tile lx ly anns =
      ((anns.find? fun a =>
          a.tile_number == tile &&
            decide ((lx - a.x) * (lx - a.x) + (ly - a.y) * (ly - a.y) ≤ 16)).map
        (fun a => a.text)) := by
  induction anns with
  | nil => rfl
  | cons a rest ih =>
    have ha : a.text.take 63 = a.text :=
      List.take_of_length_le (hlen a (List.mem_cons_self a rest))
    have hrest := ih fun b hb => hlen b (List.mem_cons_of_mem a hb)
    by_cases h : a.tile_number = tile ∧
        (lx - a.x) * (lx - a.x) + (ly - a.y) * (ly - a.y) ≤ 16
    · rw [scanAnns, if_pos h, List.find?_cons_of_pos, Option.map_some', ha]
      simp [h.1, h.2]
    · rw [scanAnns, if_neg h, List.find?_cons_of_neg, hrest]
      simp only [Bool.and_eq_true, beq_iff_eq, decide_eq_true_eq]
      exact fun hc => h hc

lemma tdiv_nonneg_bounds {a b : Int} (ha : 0 ≤ a) (hb : 0 < b) :
    a.tdiv b = a / b := Int.tdiv_eq_ediv ha (le_of_lt hb)

/-- C2: for every camera position within the clamp bounds and every loaded
annotation table (labels at most 63 characters, which `loadLines_text_length`
shows every table produced by the loader satisfies), `check_annotations`
computes exactly what the specification describes: cursor = camera +
(64, 32), first annotation in load order on the cursor's tile within squared
distance `4 * 4 = 16`, ties broken by load order, `none` when no record
matches. -/
theorem C2_hit_test_matches_spec (anns : List Annotation) (camera_x camera_y : Int)
    (hx0 : 0 ≤ camera_x) (hx1 : camera_x ≤ 640 - 128)
    (hy0 : 0 ≤ camera_y) (hy1 : camera_y ≤ 640 - 64)
    (hlen : ∀ a ∈ anns, a.text.length ≤ 63) :
    check_annotations anns camera_x camera_y = specHitTest anns camera_x camera_y := by
  have hcol : (camera_x + 64).tdiv 128 = (camera_x + 64) / 128 :=
    tdiv_nonneg_bounds (by omega) (by norm_num)
  have hrow : (camera_y + 32).tdiv 64 = (camera_y + 32) / 64 :=
    tdiv_nonneg_bounds (by omega) (by norm_num)
  have hcol_bounds : 0 ≤ (camera_x + 64) / 128 ∧ (camera_x + 64) / 128 ≤ 4 := by
    constructor <;> omega
  have hrow_bounds : 0 ≤ (camera_y + 32) / 64 ∧ (camera_y + 32) / 64 ≤ 9 := by
    constructor <;> omega
  unfold check_annotations specHitTest
  rw [if_neg (by rw [hcol, hrow]; omega)]
  exact scanAnns_eq_find _ _ _ anns hlen

/-- Witness for C2 at a concrete camera position and annotation table. -/
theorem C2_hit_test_matches_spec_witness :
    check_annotations [⟨0, 64, 30, ['X']⟩] 0 0 = specHitTest [⟨0, 64, 30, ['X']⟩] 0 0 :=
  C2_hit_test_matches_spec [⟨0, 64, 30, ['X']⟩] 0 0 (by decide) (by decide)
    (by decide) (by decide) (by decide)

/-- Counterexample to C9: at camera position `(832, 0)` (outside the clamp
bounds, which the claim explicitly includes) the cursor column is
`896 / 128 = 7`, outside the grid `[0, 5)`, yet the hit-test does **not**
report "no annotation": the combined tile number `0 * 5 + 7 = 7` passes the
`[0, 50)` bounds check and the annotation stored for tile 7 is reported. -/
theorem C9_counterexample :
    ((832 : Int) + 64).tdiv 128 = 7 ∧ ¬ ((7 : Int) < 5) ∧
      check_annotations [⟨7, 0, 32, ['A']⟩] 832 0 = some ['A'] := by
  refine ⟨by decide, by decide, ?_⟩
  rfl

/-- C9 (amended): the hit-test returns no annotation exactly when the
*combined* tile number `row * 5 + col` lies outside `[0, 50)`; it never
panics or wraps (it is a total function), but an out-of-grid `(row, col)`
whose combined number happens to land in `[0, 50)` is matched against the
records of that aliased tile rather than rejected. -/
theorem C9_out_of_range_tile_number_gives_none (anns : List Annotation)
    (camera_x camera_y : Int)
    (h : ((camera_y + 32).tdiv 64) * 5 + (camera_x + 64).tdiv 128 < 0 ∨
      50 ≤ ((camera_y + 32).tdiv 64) * 5 + (camera_x + 64).tdiv 128) :
    check_annotations anns camera_x camera_y = none := by
  unfold check_annotations
  exact if_pos h

/-- Witness for the amended C9: camera far off the map to the left. -/
theorem C9_out_of_range_tile_number_gives_none_witness :
    check_annotations [⟨0, 0, 0, ['A']⟩] (-200) 0 = none :=
  C9_out_of_range_tile_number_gives_none [⟨0, 0, 0, ['A']⟩] (-200) 0 (by decide)

/-! ## Lemmas — annotation loading, claims C5, C6 and C7 -/

lemma loadAux_skip (bad : List Char) (hbad : parseAnn bad = none) :
    ∀ (pre : List (List Char)) (fuel : Nat) (post : List (List Char)),
      loadAux (pre ++ bad :: post) fuel = loadAux (pre ++ post) fuel := by
  intro pre
  induction pre with
  | nil =>
    intro fuel post
    cases fuel with
    | zero => rw [List.nil_append, List.nil_append, loadAux_zero, loadAux_zero]
    | succ n => simp [loadAux, hbad]
  | cons l pre ih =>
    intro fuel post
    cases fuel with
    | zero => rw [loadAux_zero, loadAux_zero]
    | succ n =>
      cases hp : parseAnn l with
      | some a => simp [loadAux, hp, ih]
      | none => simp [loadAux, hp, ih]

lemma loadAux_length_le : ∀ (ls : List (List Char)) (fuel : Nat),
    (loadAux ls fuel).length ≤ fuel := by
  intro ls
  induction ls with
  | nil => intro fuel; simp [loadAux]
  | cons l ls ih =>
    intro fuel
    cases fuel with
    | zero => simp [loadAux]
    | succ n =>
      cases hp : parseAnn l with
      | some a => simpa [loadAux, hp] using ih n
      | none => simpa [loadAux, hp] using ih (n + 1)

lemma loadAux_stops_when_full : ∀ (pre : List (List Char)) (fuel : Nat)
    (post : List (List Char)), (loadAux pre fuel).length = fuel →
      loadAux (pre ++ post) fuel = loadAux pre fuel := by
  intro pre
  induction pre with
  | nil =>
    intro fuel post h
    simp only [loadAux, List.length_nil] at h
    subst h
    rw [List.nil_append, loadAux_zero, loadAux_zero]
  | cons l pre ih =>
    intro fuel post h
    cases fuel with
    | zero => rw [loadAux_zero, loadAux_zero]
    | succ n =>
      cases hp : parseAnn l with
      | some a =>
        simp only [loadAux, hp, List.length_cons, Nat.succ.injEq] at h
        simp [loadAux, hp, ih n post h]
      | none =>
        simp only [loadAux, hp] at h
        simp [loadAux, hp, ih (n + 1) post h]

/-- C5: the header line is discarded unconditionally; a data line that fails
the four-field parse or whose tile number is outside `[0, 50)` is skipped
without aborting the load (later records are unaffected); in particular the
three-field line `"5,10,10"` is skipped; at most 200 records are stored, and
once 200 records have been stored the remaining lines are ignored. -/
theorem C5_tolerant_parsing :
    (∀ h₁ h₂ rest, loadLines (h₁ :: rest) = loadLines (h₂ :: rest)) ∧
      (∀ (hd : List Char) pre bad post, parseAnn bad = none →
        loadLines (hd :: (pre ++ bad :: post)) = loadLines (hd :: (pre ++ post))) ∧
      (∀ (l : List Char) t x y txt,
        parseRecord (l.takeWhile (· != '\r')) = some (t, x, y, txt) →
        (t < 0 ∨ 50 ≤ t) → parseAnn l = none) ∧
      parseAnn "5,10,10".data = none ∧
      (∀ lines, (loadLines lines).length ≤ 200) ∧
      (∀ (hd : List Char) pre post, (loadLines (hd :: pre)).length = 200 →
        loadLines (hd :: (pre ++ post)) = loadLines (hd :: pre)) := by
  refine ⟨fun h₁ h₂ rest => rfl, ?_, ?_, by decide, ?_, ?_⟩
  · intro hd pre bad post hbad
    exact loadAux_skip bad hbad pre 200 post
  · intro l t x y txt hrec hout
    simp only [parseAnn, hrec]
    rw [if_neg (by omega)]
  · intro lines
    cases lines with
    | nil => simp [loadLines]
    | cons hd rest => exact loadAux_length_le rest 200
  · intro hd pre post h
    exact loadAux_stops_when_full pre 200 post h

/-- Witness for C5: the three-field line `"5,10,10"` is skipped and the
well-formed record after it is still loaded. -/
theorem C5_tolerant_parsing_witness :
    loadLines ["h".data, "5,10,10".data, "7,1,2,A".data] =
      loadLines ["h".data, "7,1,2,A".data] :=
  C5_tolerant_parsing.2.1 "h".data [] "5,10,10".data ["7,1,2,A".data]
    (by decide)

lemma splitLines_ne_nil : ∀ content : List Char, splitLines content ≠ []
  | [] => by simp [splitLines]
  | c :: rest => by
    simp only [splitLines]
    split
    · simp
    · rcases h : splitLines rest with _ | ⟨l, ls⟩ <;> simp [h]

lemma loadAux_all_none : ∀ (ls : List (List Char)) (fuel : Nat),
    (∀ l ∈ ls, parseAnn l = none) → loadAux ls fuel = [] := by
  intro ls
  induction ls with
  | nil => intro fuel _; cases fuel <;> rfl
  | cons l ls ih =>
    intro fuel h
    cases fuel with
    | zero => rfl
    | succ n =>
      have hl : parseAnn l = none := h l (List.mem_cons_self l ls)
      simp only [loadAux, hl]
      exact ih (n + 1) fun l' hl' => h l' (List.mem_cons_of_mem l hl')

/-- Counterexample to C6: a readable source whose only data record is
malformed.  `load_annotations` yields zero records but it **does** report the
load as failed (it returns `annotation_count > 0`, here `false`), and its
caller `scroller_main` logs `"Failed to load annotations"` on that result. -/
theorem C6_counterexample :
    (load_annotations "tile,x,y,label\ngarbage".data).1 = [] ∧
      (load_annotations "tile,x,y,label\ngarbage".data).2 ≠ true := by
  refine ⟨?_, ?_⟩ <;> decide

/-- C6 (amended): when the annotation source is empty or every data record is
malformed, load completes and yields a valid index containing zero records,
but it signals failure (`false`) to its caller, which logs an error and
continues; an empty source is additionally rejected by the size guard before
any parsing. -/
theorem C6_zero_records_reported_as_failure (content : List Char)
    (h : ∀ l ∈ (splitLines content).tail, parseAnn l = none) :
    load_annotations content = ([], false) := by
  unfold load_annotations
  split
  · rfl
  · rcases hs : splitLines content with _ | ⟨hd, rest⟩
    · exact absurd hs (splitLines_ne_nil content)
    · rw [hs] at h
      simp only [List.tail_cons] at h
      simp [loadLines, loadAux_all_none rest 200 h]

/-- Witness for the amended C6. -/
theorem C6_zero_records_reported_as_failure_witness :
    load_annotations "hdr\nnot a record".data = ([], false) :=
  C6_zero_records_reported_as_failure "hdr\nnot a record".data (by decide)

/-- Counterexample to C7: the loader never validates the `x` and `y` fields,
so the out-of-range record `"5,999,10,Star"` (local x `999 ∉ [0, 128)`) is
stored as-is. -/
theorem C7_counterexample :
    ¬ (∀ a ∈ loadLines ["tile,x,y,label".data, "5,999,10,Star".data],
        0 ≤ a.tile_number ∧ a.tile_number < 50 ∧
          0 ≤ a.x ∧ a.x < 128 ∧ 0 ≤ a.y ∧ a.y < 64) := by
  decide

lemma parseAnn_tile_range {l : List Char} {a : Annotation}
    (h : parseAnn l = some a) : 0 ≤ a.tile_number ∧ a.tile_number < 50 := by
  unfold parseAnn at h
  rcases hr : parseRecord (l.takeWhile (· != '\r')) with _ | ⟨t, x, y, txt⟩
  · rw [hr] at h
    cases h
  · rw [hr] at h
    dsimp only at h
    by_cases hc : 0 ≤ t ∧ t < 50
    · rw [if_pos hc] at h
      cases h
      simpa using hc
    · rw [if_neg hc] at h
      cases h

/-- C7 (amended): every record stored by the loader has its tile number in
`[0, 50)` (this is the only range the loader enforces); the local `x` and `y`
fields are stored exactly as parsed and may lie outside
`[0, 128) × [0, 64)`. -/
theorem C7_stored_tile_number_in_range (lines : List (List Char))
    (a : Annotation) (ha : a ∈ loadLines lines) :
    0 ≤ a.tile_number ∧ a.tile_number < 50 := by
  cases lines with
  | nil => rw [loadLines] at ha; cases ha
  | cons hd rest =>
    obtain ⟨l, _, hl⟩ := loadAux_mem rest 200 a ha
    exact parseAnn_tile_range hl

/-- Witness for the amended C7. -/
theorem C7_stored_tile_number_in_range_witness :
    0 ≤ (⟨7, 1, 2, ['A']⟩ : Annotation).tile_number ∧
      (⟨7, 1, 2, ['A']⟩ : Annotation).tile_number < 50 :=
  C7_stored_tile_number_in_range ["h".data, "7,1,2,A".data] ⟨7, 1, 2, ['A']⟩
    (by decide)

/-! ## Lemmas — bitmap decoder, claims C3 and C4 -/

/-- C3 is a code bug: the decoder does reject a wrong signature, a short
header, wrong dimensions and a wrong bit depth (with zero pixels emitted),
but on a short read of a row stride it `break`s out of the scanline loop and
then *unconditionally* sets `success = true`, so the decode is reported as
successful to the caller — contradicting the claim, the function's own
`@return true if loaded and drawn successfully` contract and its
`"Failed to read row"` error log.  The first conjunct evaluates the decoder
on a file that is a valid header with no pixel data at all: every row read
is short, yet the result flag is `true`. -/
theorem C3_truncated_rows_reported_as_success :
    draw_tile_bmp 0 0 (mkFile []) = (true, []) ∧
      draw_tile_bmp 0 0 (List.replicate 54 0) = (false, []) ∧
      draw_tile_bmp 0 0 [66, 77, 0] = (false, []) ∧
      draw_tile_bmp 0 0 badWidthHeader = (false, []) ∧
      draw_tile_bmp 0 0 badBppHeader = (false, []) := by
  refine ⟨?_, ?_, ?_, ?_, ?_⟩ <;> decide

lemma pixelBit_iff_testBit (buf : List Nat) (col : Nat) :
    pixelBit buf col = true ↔
      Nat.testBit (buf.getD (col / 8) 0) (7 - col % 8) = true := by
  rw [Nat.testBit_to_div_mod]
  simp only [pixelBit, Nat.shiftRight_eq_div_pow, Nat.and_one_is_mod,
    beq_iff_eq, decide_eq_true_eq]

lemma mem_rowPixels {x y : Int} {width : Nat} {buf : List Nat} {row : Int}
    {p : Int × Int} :
    p ∈ rowPixels x y width buf row ↔
      ∃ col : Nat, col < width ∧ pixelBit buf col = true ∧
        p = (x + col, y + row) := by
  simp only [rowPixels, List.mem_filterMap, List.mem_range]
  constructor
  · rintro ⟨col, hcol, hif⟩
    by_cases hb : pixelBit buf col
    · rw [if_pos hb] at hif
      exact ⟨col, hcol, hb, (Option.some_inj.mp hif).symm⟩
    · rw [if_neg hb] at hif
      cases hif
  · rintro ⟨col, hcol, hb, rfl⟩
    exact ⟨col, hcol, by rw [if_pos hb]⟩

lemma mem_drawRows {x y : Int} {width stride : Nat} :
    ∀ (rows : List Int) (data : List Nat), stride * rows.length ≤ data.length →
      ∀ p : Int × Int,
        (p ∈ drawRows x y width stride rows data ↔
          ∃ n : Nat, ∃ hn : n < rows.length,
            p ∈ rowPixels x y width ((data.drop (stride * n)).take stride)
              rows[n]) := by
  intro rows
  induction rows with
  | nil =>
    intro data _ p
    simp [drawRows]
  | cons r rs ih =>
    intro data hlen p
    simp only [List.length_cons] at hlen
    have hexp : stride * (rs.length + 1) = stride * rs.length + stride := by
      ring
    have hsd : stride ≤ data.length := by omega
    have hrest : stride * rs.length ≤ (data.drop stride).length := by
      rw [List.length_drop]
      omega
    rw [drawRows, if_pos hsd]
    rw [List.mem_append, ih (data.drop stride) hrest p]
    constructor
    · rintro (h | ⟨n, hn, h⟩)
      · refine ⟨0, by simp, ?_⟩
        simpa using h
      · refine ⟨n + 1, by simpa using Nat.succ_lt_succ hn, ?_⟩
        have harith : (data.drop stride).drop (stride * n) =
            data.drop (stride * (n + 1)) := by
          rw [List.drop_drop]
          congr 1
          ring
        rw [harith] at h
        simpa using h
    · rintro ⟨n, hn, h⟩
      cases n with
      | zero =>
        left
        simpa using h
      | succ m =>
        right
        refine ⟨m, by simpa using Nat.lt_of_succ_lt_succ hn, ?_⟩
        have harith : (data.drop stride).drop (stride * m) =
            data.drop (stride * (m + 1)) := by
          rw [List.drop_drop]
          congr 1
          ring
        rw [harith]
        simpa using h

lemma descRows_length : ∀ n : Nat, (descRows n).length = n
  | 0 => rfl
  | n + 1 => by simp [descRows, descRows_length n]

lemma descRows_getElem : ∀ (n i : Nat) (h : i < (descRows n).length),
    (descRows n)[i] = ((n : Int) - 1 - i) := by
  intro n
  induction n with
  | zero => intro i h; rw [descRows_length] at h; omega
  | succ m ih =>
    intro i h
    cases i with
    | zero => simp [descRows]
    | succ j =>
      have hj : j < (descRows m).length := by
        rw [descRows_length] at h ⊢
        omega
      have := ih j hj
      simp only [descRows, List.getElem_cons_succ, this]
      push_cast
      ring

lemma mkFile_header_getD (data : List Nat) (i : Nat) (h : i < 54) :
    (mkFile data).getD i 0 = validHeader.getD i 0 := by
  have hlen : validHeader.length = 54 := by decide
  exact List.getD_append _ _ _ _ (by omega)

/-- Reduction of `draw_tile_bmp` on a well-formed file: the header checks all
pass and the scanline loop runs on the pixel data with stride 16 (the C
`row_size = ((128 + 31) / 32) * 4`, which equals the specification's
`ceil(128 / 32) * 4`). -/
lemma draw_tile_bmp_mkFile (x y : Int) (data : List Nat) :
    draw_tile_bmp x y (mkFile data) =
      (true, drawRows x y 128 16 (descRows 64) data) := by
  have hlen : (mkFile data).length = 54 + data.length := by
    rw [mkFile, List.length_append, show validHeader.length = 54 from by decide]
  have h18 : le32At (mkFile data) 18 = 128 := by
    unfold le32At
    rw [mkFile_header_getD data 18 (by omega), mkFile_header_getD data 19 (by omega),
      mkFile_header_getD data 20 (by omega), mkFile_header_getD data 21 (by omega)]
    decide
  have h22 : le32At (mkFile data) 22 = 64 := by
    unfold le32At
    rw [mkFile_header_getD data 22 (by omega), mkFile_header_getD data 23 (by omega),
      mkFile_header_getD data 24 (by omega), mkFile_header_getD data 25 (by omega)]
    decide
  have h28 : le16At (mkFile data) 28 = 1 := by
    unfold le16At
    rw [mkFile_header_getD data 28 (by omega), mkFile_header_getD data 29 (by omega)]
    decide
  have h10 : le32At (mkFile data) 10 = 54 := by
    unfold le32At
    rw [mkFile_header_getD data 10 (by omega), mkFile_header_getD data 11 (by omega),
      mkFile_header_getD data 12 (by omega), mkFile_header_getD data 13 (by omega)]
    decide
  have hdrop : (mkFile data).drop 54 = data := by
    have : (54 : Nat) = validHeader.length := by decide
    rw [mkFile, this, List.drop_left]
  unfold draw_tile_bmp
  rw [if_neg (by omega)]
  rw [if_neg (by
    rw [mkFile_header_getD data 0 (by omega), mkFile_header_getD data 1 (by omega)]
    decide)]
  simp only [h18, h22, h28, h10, hdrop]
  rw [show sint32 128 = 128 from by decide, show sint32 64 = 64 from by decide]
  rw [if_pos (by norm_num)]
  rfl

/-- C4: for a valid `128 × 64` 1-bit bitmap whose pixel data is complete
(64 scanlines of `ceil(128/32) * 4 = 16` bytes), pixel `(c, r)` is emitted
exactly when bit `7 - c % 8` of byte `c / 8` of the scanline stored at file
offset `(63 - r) * 16` is set — i.e. scanlines appear bottom-to-top in the
file, the first scanline consumed being display row 63; clear bits emit
nothing. -/
theorem C4_valid_bitmap_pixel_layout (data : List Nat)
    (hlen : data.length = 1024) (hbytes : ∀ b ∈ data, b < 256)
    (c r : Nat) (hc : c < 128) (hr : r < 64) :
    (((c : Int), (r : Int)) ∈ (draw_tile_bmp 0 0 (mkFile data)).2 ↔
      Nat.testBit (data.getD ((63 - r) * 16 + c / 8) 0) (7 - c % 8) = true) := by
  rw [draw_tile_bmp_mkFile]
  have hmem := @mem_drawRows 0 0 128 16 (descRows 64) data
    (by rw [descRows_length]; omega) ((c : Int), (r : Int))
  rw [hmem]
  have hchunk : ∀ n : Nat, n < 64 → ∀ j : Nat, j < 16 →
      ((data.drop (16 * n)).take 16).getD j 0 = data.getD (16 * n + j) 0 := by
    intro n hn j hj
    have h1 : 16 * n + j < data.length := by omega
    have h2 : j < ((data.drop (16 * n)).take 16).length := by
      rw [List.length_take, List.length_drop]
      omega
    rw [List.getD_eq_getElem _ _ h2, List.getD_eq_getElem _ _ h1,
      List.getElem_take, List.getElem_drop]
  constructor
  · rintro ⟨n, hn, h⟩
    rw [descRows_length] at hn
    rw [mem_rowPixels] at h
    obtain ⟨col, hcol, hbit, heq⟩ := h
    rw [descRows_getElem 64 n (by rw [descRows_length]; omega)] at heq
    rw [Prod.ext_iff] at heq
    obtain ⟨h1, h2⟩ := heq
    dsimp at h1 h2
    have hcc : col = c := by omega
    have hnr : n = 63 - r := by omega
    rw [pixelBit_iff_testBit] at hbit
    rw [hchunk n hn (col / 8) (by omega)] at hbit
    rw [hcc, hnr, show 16 * (63 - r) + c / 8 = (63 - r) * 16 + c / 8 from by
      ring] at hbit
    exact hbit
  · intro hbit
    refine ⟨63 - r, by rw [descRows_length]; omega, ?_⟩
    rw [mem_rowPixels]
    refine ⟨c, hc, ?_, ?_⟩
    · rw [pixelBit_iff_testBit]
      rw [hchunk (63 - r) (by omega) (c / 8) (by omega)]
      rw [show 16 * (63 - r) + c / 8 = (63 - r) * 16 + c / 8 from by ring]
      exact hbit
    · rw [descRows_getElem 64 (63 - r) (by rw [descRows_length]; omega)]
      rw [Prod.ext_iff]
      constructor <;> dsimp <;> omega

/-- Witness for C4: an all-`0xFF` pixel payload sets the top-left pixel. -/
theorem C4_valid_bitmap_pixel_layout_witness :
    ((0 : Int), (0 : Int)) ∈
      (draw_tile_bmp 0 0 (mkFile (List.replicate 1024 255))).2 :=
  (C4_valid_bitmap_pixel_layout (List.replicate 1024 255)
      (by rw [List.length_replicate])
      (fun b hb => by rw [List.eq_of_mem_replicate hb]; decide)
      0 0 (by decide) (by decide)).mpr
    (by
      have h1008 : (List.replicate 1024 255).getD 1008 0 = 255 := by
        rw [List.getD_eq_getElem _ _ (by rw [List.length_replicate]; omega),
          List.getElem_replicate]
      rw [show (63 - 0) * 16 + 0 / 8 = 1008 from rfl, h1008]
      decide)

/-! ## Lemmas — visible tile range, claim C8 -/

lemma mem_intRange {a b r : Int} : r ∈ intRange a b ↔ a ≤ r ∧ r ≤ b := by
  constructor
  · intro h
    simp only [intRange, List.mem_map, List.mem_range] at h
    obtain ⟨i, hi, hr⟩ := h
    omega
  · rintro ⟨h1, h2⟩
    refine List.mem_map.mpr ⟨(r - a).toNat, List.mem_range.mpr (by omega), ?_⟩
    show a + ((r - a).toNat : Int) = r
    omega

lemma mem_drawn_tiles {camera_x camera_y r c : Int} :
    (r, c) ∈ drawn_tiles camera_x camera_y ↔
      ((visible_range camera_x camera_y).1 ≤ r ∧
        r ≤ (visible_range camera_x camera_y).2.1 ∧
        (visible_range camera_x camera_y).2.2.1 ≤ c ∧
        c ≤ (visible_range camera_x camera_y).2.2.2) := by
  simp only [drawn_tiles, List.mem_flatMap, List.mem_map, Prod.mk.injEq]
  constructor
  · rintro ⟨row, hrow, col, hcol, rfl, rfl⟩
    rw [mem_intRange] at hrow hcol
    exact ⟨hrow.1, hrow.2, hcol.1, hcol.2⟩
  · rintro ⟨h1, h2, h3, h4⟩
    exact ⟨r, mem_intRange.mpr ⟨h1, h2⟩, c, mem_intRange.mpr ⟨h3, h4⟩,
      rfl, rfl⟩

lemma visible_range_eq_spec (camera_x camera_y : Int)
    (hx0 : 0 ≤ camera_x) (hx1 : camera_x ≤ 640 - 128)
    (hy0 : 0 ≤ camera_y) (hy1 : camera_y ≤ 640 - 64) :
    visible_range camera_x camera_y = spec_visible_bounds camera_x camera_y := by
  have hsc : camera_x.tdiv 128 = camera_x / 128 :=
    Int.tdiv_eq_ediv hx0 (by norm_num)
  have hsr : camera_y.tdiv 64 = camera_y / 64 :=
    Int.tdiv_eq_ediv hy0 (by norm_num)
  have hec : (camera_x + 128).tdiv 128 = (camera_x + 128) / 128 :=
    Int.tdiv_eq_ediv (by omega) (by norm_num)
  have her : (camera_y + 64).tdiv 64 = (camera_y + 64) / 64 :=
    Int.tdiv_eq_ediv (by omega) (by norm_num)
  unfold visible_range spec_visible_bounds
  simp only [hsc, hsr, hec, her, Prod.mk.injEq]
  refine ⟨?_, ?_, ?_, ?_⟩ <;> split_ifs <;> omega

/-- C8: for every camera position within the clamp bounds, the set of tiles
rendered is exactly the inclusive range from `floor(camera / tile_extent)`
through `floor((camera + screen_extent) / tile_extent)`, rows clamped to
`[0, 9]` and columns to `[0, 4]`; at camera `(0, 0)` this is rows `0..1` and
columns `0..1`, so a tile whose edge exactly meets the screen edge is
included. -/
theorem C8_visible_tiles (camera_x camera_y : Int)
    (hx0 : 0 ≤ camera_x) (hx1 : camera_x ≤ 640 - 128)
    (hy0 : 0 ≤ camera_y) (hy1 : camera_y ≤ 640 - 64) :
    (∀ r c : Int, (r, c) ∈ drawn_tiles camera_x camera_y ↔
      ((spec_visible_bounds camera_x camera_y).1 ≤ r ∧
        r ≤ (spec_visible_bounds camera_x camera_y).2.1 ∧
        (spec_visible_bounds camera_x camera_y).2.2.1 ≤ c ∧
        c ≤ (spec_visible_bounds camera_x camera_y).2.2.2)) ∧
      drawn_tiles 0 0 = [(0, 0), (0, 1), (1, 0), (1, 1)] := by
  constructor
  · intro r c
    rw [mem_drawn_tiles,
      visible_range_eq_spec camera_x camera_y hx0 hx1 hy0 hy1]
  · decide

/-- Witness for C8: the boundary scenario at camera `(0, 0)`. -/
theorem C8_visible_tiles_witness :
    drawn_tiles 0 0 = [(0, 0), (0, 1), (1, 0), (1, 1)] :=
  (C8_visible_tiles 0 0 (by decide) (by decide) (by decide) (by decide)).2

end Scroller
